import Mathlib

/-!
# Shallow embedding of the `hono-event-emitter` dispatcher

This file embeds the event-emitter core of `src/dist/index.mjs` (the built
module, which matches the published type declarations `dist/index.d.mts` and
the test suite; `src/src/index.ts` in this snapshot is an older revision
without `emitAsync`/options) and proves the frozen claims about it.

Modelling decisions:

* `EventKey` is `string | symbol` in the source; we model it as an inductive
  with a `str` and a `sym` constructor.  `Object.entries` (used by
  `createEmitter` on the initial handler map) enumerates only string-keyed
  own properties, which the embedding reflects by filtering the seed entries
  to `Key.str` keys.
* Handlers are identified by reference identity in the source
  (`handlerArray.includes(handler)`, `h !== handler`); we model a handler as
  an opaque identity `Handler := Nat`.  The dispatcher never calls into a
  handler except at emit time, so a handler's dynamic behaviour is supplied
  to the emit functions as a separate map `B : Handler → Carrier → Payload →
  Except Err Unit` giving the settled outcome of invoking that handler with
  those arguments.
* The embedding's `Handler` type contains only (identities of) functions, so
  the `typeof handler !== "function"` guard at the top of `on` is vacuous
  here and is not modelled; no frozen claim concerns it.
* The registry `handlers` is a JS `Map`; we model it as a function
  `Key → Option (List Handler)` with `mapSet` / `mapDelete` for `set` /
  `delete`.  `new Map(entries)` iterates the entries in order calling `set`,
  so later entries for the same key overwrite earlier ones (`mapFromEntries`).
* `emit` / `emitAsync` are modelled as pure functions returning the ordered
  trace of handler invocations performed (each invocation records the handler
  identity and the exact `(carrier, payload)` pair it received) together with
  the outcome: `none` for normal completion, `some f` when the call throws /
  the promise rejects with failure `f`.  The sequential `for … await` loops
  stop at the first error; the concurrent branch settles every handler via
  `Promise.allSettled` before collecting the rejections.
-/

/-- Event keys: `string | symbol` in the source. -/
inductive Key where
  | str (s : String)
  | sym (id : Nat)
deriving DecidableEq, Repr

/-- `true` exactly on string keys (the keys `Object.entries` enumerates). -/
def Key.isStr : Key → Bool
  | .str _ => true
  | .sym _ => false

/-- `String(key)` as used in the source's error messages. -/
def Key.toDisplay : Key → String
  | .str s => s
  | .sym id => "Symbol(" ++ toString id ++ ")"

/-- A handler is identified purely by reference identity. -/
abbrev Handler := Nat

/-- The opaque context value forwarded as the first handler argument. -/
abbrev Carrier := Nat

/-- The opaque payload value forwarded as the second handler argument. -/
abbrev Payload := Nat

/-- An error value thrown or rejected-with by a handler. -/
abbrev Err := Nat

/-- The registry: a JS `Map` from event key to handler array. -/
abbrev Registry := Key → Option (List Handler)

/-- `map.set(k, v)`. -/
def mapSet (m : Registry) (k : Key) (v : List Handler) : Registry :=
  fun k' => if k' = k then some v else m k'

/-- `map.delete(k)`. -/
def mapDelete (m : Registry) (k : Key) : Registry :=
  fun k' => if k' = k then none else m k'

/-- `new Map(entries)`: iterate the entries in order, calling `set` on each,
so a later entry for the same key overwrites an earlier one. -/
def mapFromEntries (l : List (Key × List Handler)) : Registry :=
  l.foldl (fun m kv => mapSet m kv.1 kv.2) (fun _ => none)

/-- The state captured by one emitter instance: the `handlers` map together
with the construction-time `options?.maxHandlers` (absent when either the
options object or its `maxHandlers` field was omitted). -/
structure EmitterState where
  handlers : Registry
  maxHandlers : Option Int

/-- `options?.maxHandlers ?? 10`: the effective per-key handler limit. -/
def EmitterState.limit (st : EmitterState) : Int :=
  st.maxHandlers.getD 10

/-- The key's handler array, reading absence as the empty list (observably
equivalent for every operation of the dispatcher). -/
def EmitterState.listOf (st : EmitterState) (k : Key) : List Handler :=
  (st.handlers k).getD []

/-- `createEmitter(eventHandlers, options)` (construction only): builds the
registry as `new Map(Object.entries(eventHandlers))`.  `Object.entries`
returns only the string-keyed own properties, silently dropping entries
under symbol keys; an omitted `eventHandlers` argument is the empty seed
list.  No validation of `options` is performed. -/
def createEmitter (eventHandlers : List (Key × List Handler))
    (options : Option Int) : EmitterState :=
  { handlers := mapFromEntries (eventHandlers.filter (fun kv => kv.1.isStr))
    maxHandlers := options }

/-- The error thrown by `on` when the per-key handler limit is reached: a
`RangeError` whose message interpolates the configured limit and the key. -/
structure LimitError where
  limit : Int
  key : Key
deriving DecidableEq, Repr

/-- `on(key, handler)`: ensure the key has an array, then throw a
`RangeError` when `handlerArray.length >= limit`, else push `handler`
unless it is already present.  The returned state reflects every mutation
performed before a throw (the empty array installed for a fresh key
survives the throw). -/
def «on» (st : EmitterState) (key : Key) (handler : Handler) :
    EmitterState × Option LimitError :=
  let reg :=
    if (st.handlers key).isSome then st.handlers else mapSet st.handlers key []
  let handlerArray := (reg key).getD []
  if (handlerArray.length : Int) ≥ st.limit then
    ({ st with handlers := reg }, some ⟨st.limit, key⟩)
  else if handler ∈ handlerArray then
    ({ st with handlers := reg }, none)
  else
    ({ st with handlers := mapSet reg key (handlerArray ++ [handler]) }, none)

/-- `off(key, handler?)`: with no handler, delete the key's whole array;
with a handler, replace the array (when present) by the array filtered of
that handler identity. -/
def off (st : EmitterState) (key : Key) (handler : Option Handler) :
    EmitterState :=
  match handler with
  | none => { st with handlers := mapDelete st.handlers key }
  | some h =>
    match st.handlers key with
    | none => st
    | some handlerArray =>
      { st with
        handlers := mapSet st.handlers key (handlerArray.filter (· ≠ h)) }

/-- One observed handler invocation: which handler ran and the exact
argument pair it received. -/
structure Invocation where
  handler : Handler
  carrier : Carrier
  payload : Payload
deriving DecidableEq, Repr

/-- The behaviour map supplied at emit time: the settled outcome of invoking
a given handler identity with the given arguments. -/
abbrev Behaviour := Handler → Carrier → Payload → Except Err Unit

/-- The loop shared (up to `await`) by `emit` and the sequential branch of
`emitAsync`: invoke the handlers in array order; a throw/rejection stops the
loop at once, and the error propagates unmodified. -/
def runSeq (B : Behaviour) (c : Carrier) (p : Payload) :
    List Handler → List Invocation × Option Err
  | [] => ([], none)
  | h :: rest =>
    match B h c p with
    | .error e => ([⟨h, c, p⟩], some e)
    | .ok _ =>
      let r := runSeq B c p rest
      (⟨h, c, p⟩ :: r.1, r.2)

/-- `emit(key, c, payload)`: run every handler of the key's array in order,
synchronously; a synchronous throw aborts the loop and propagates. -/
def emit (st : EmitterState) (B : Behaviour) (key : Key) (c : Carrier)
    (p : Payload) : List Invocation × Option Err :=
  runSeq B c p (st.listOf key)

/-- `EmitAsyncOptions.mode` values; the source spells the sequential mode
`'sequencial'`. -/
inductive Mode where
  | concurrent
  | sequencial
deriving DecidableEq, Repr

/-- A failure of `emitAsync`: either a single handler's error propagated
unwrapped (sequential mode), or the `AggregateError` thrown by the
concurrent branch, carrying the rejection reasons in handler order and the
summary message built by the source. -/
inductive AsyncFailure where
  | handlerError (e : Err)
  | aggregateError (errors : List Err) (message : String)
deriving DecidableEq, Repr

/-- The `AggregateError` message of the source:
`` `${errors.length} handler(s) for event ${String(key)} encountered errors` ``. -/
def aggregateMessage (n : Nat) (key : Key) : String :=
  toString n ++ " handler(s) for event " ++ key.toDisplay ++
    " encountered errors"

/-- `emitAsync(key, c, payload, { mode })`: sequential mode awaits each
handler in order and stops at the first rejection, which propagates
unwrapped; concurrent mode `Promise.allSettled`s every handler, then throws
an `AggregateError` of the rejection reasons (in handler order) when any
rejected, else resolves.  The default mode is `concurrent`. -/
def emitAsync (st : EmitterState) (B : Behaviour) (key : Key) (c : Carrier)
    (p : Payload) (mode : Mode) : List Invocation × Option AsyncFailure :=
  let handlerArray := st.listOf key
  match mode with
  | .sequencial =>
    let r := runSeq B c p handlerArray
    (r.1, r.2.map .handlerError)
  | .concurrent =>
    let errors := handlerArray.filterMap (fun h =>
      match B h c p with
      | .error e => some e
      | .ok _ => none)
    (handlerArray.map (fun h => ⟨h, c, p⟩),
     if errors.isEmpty then none
     else some (.aggregateError errors (aggregateMessage errors.length key)))

/-- One registry-mutating operation, for reachability statements. -/
inductive Op where
  | subscribe (key : Key) (h : Handler)
  | unsubscribe (key : Key) (h : Option Handler)
deriving DecidableEq, Repr

/-- Apply one operation (a subscribe that throws still, per the source,
keeps the mutations made before the throw). -/
def applyOp (st : EmitterState) : Op → EmitterState
  | .subscribe k h => («on» st k h).1
  | .unsubscribe k h => off st k h

/-- Apply a sequence of operations in order. -/
def applyOps (st : EmitterState) (ops : List Op) : EmitterState :=
  ops.foldl applyOp st

/-- The no-duplicate invariant: no key's handler array mentions the same
handler identity twice. -/
def NoDupInv (st : EmitterState) : Prop :=
  ∀ k, (st.listOf k).Nodup

/-! ## Helper lemmas: the sequential loop and the concurrent error scan -/

/-- The rejection reason of a settled result, `none` when it fulfilled. -/
def errOf : Except Err Unit → Option Err
  | .error e => some e
  | .ok _ => none

theorem errOf_eq_none_iff (r : Except Err Unit) :
    errOf r = none ↔ r = .ok () := by
  cases r with
  | error e => simp [errOf]
  | ok u => cases u; simp [errOf]

theorem runSeq_all_ok (B : Behaviour) (c : Carrier) (p : Payload)
    (l : List Handler) (hok : ∀ h ∈ l, B h c p = .ok ()) :
    runSeq B c p l = (l.map (fun h => ⟨h, c, p⟩), none) := by
  induction l with
  | nil => rfl
  | cons h rest ih =>
    have hh : B h c p = .ok () := hok h (List.mem_cons_self h rest)
    have hrest : ∀ g ∈ rest, B g c p = .ok () :=
      fun g hg => hok g (List.mem_cons_of_mem h hg)
    simp [runSeq, hh, ih hrest]

theorem runSeq_first_error (B : Behaviour) (c : Carrier) (p : Payload)
    (pre : List Handler) (h : Handler) (post : List Handler) (e : Err)
    (hpre : ∀ g ∈ pre, B g c p = .ok ()) (herr : B h c p = .error e) :
    runSeq B c p (pre ++ h :: post) =
      ((pre ++ [h]).map (fun g => ⟨g, c, p⟩), some e) := by
  induction pre with
  | nil => simp [runSeq, herr]
  | cons g rest ih =>
    have hg : B g c p = .ok () := hpre g (List.mem_cons_self g rest)
    have hrest : ∀ g' ∈ rest, B g' c p = .ok () :=
      fun g' hg' => hpre g' (List.mem_cons_of_mem g hg')
    simp [runSeq, hg, ih hrest]

/-! ## C1, C9: synchronous emission -/

/-- C1: `emit` invokes every handler registered for the key (when none of
them throws), in insertion order, synchronously; each invocation receives
exactly the pair `(carrier, payload)`, and every invocation performed is of
a handler in the emitted key's list, so handlers of other keys are never
invoked. -/
theorem c1_emit_invokes_all_in_order (st : EmitterState) (B : Behaviour)
    (key : Key) (c : Carrier) (p : Payload)
    (hok : ∀ h ∈ st.listOf key, B h c p = .ok ()) :
    emit st B key c p = ((st.listOf key).map (fun h => ⟨h, c, p⟩), none) ∧
    ∀ inv ∈ (emit st B key c p).1,
      inv.carrier = c ∧ inv.payload = p ∧ inv.handler ∈ st.listOf key := by
  have hrun := runSeq_all_ok B c p (st.listOf key) hok
  refine ⟨hrun, ?_⟩
  intro inv hinv
  rw [show emit st B key c p = runSeq B c p (st.listOf key) from rfl,
    hrun] at hinv
  obtain ⟨h, hh, rfl⟩ := List.mem_map.mp hinv
  exact ⟨rfl, rfl, hh⟩

/-- Witness for C1: an emitter seeded with handlers `[1, 2]` for key `"a"`,
emitted with carrier `5` and payload `7`, performs exactly the invocations
`(1, 5, 7)` then `(2, 5, 7)` and completes normally. -/
theorem c1_witness :
    emit (createEmitter [(Key.str "a", [1, 2])] none)
        (fun _ _ _ => .ok ()) (Key.str "a") 5 7 =
      ([⟨1, 5, 7⟩, ⟨2, 5, 7⟩], none) :=
  ((c1_emit_invokes_all_in_order
      (createEmitter [(Key.str "a", [1, 2])] none)
      (fun _ _ _ => .ok ()) (Key.str "a") 5 7 (fun _ _ => rfl)).1).trans
    (by decide)

/-- C9: a handler that throws synchronously during `emit` aborts the loop:
with the key's list split as `pre ++ h :: post` where every handler of
`pre` succeeds and `h` throws `e`, exactly `pre ++ [h]` are invoked (the
handlers after the throwing one are never invoked) and the thrown error
propagates to the caller unmodified. -/
theorem c9_emit_throw_aborts (st : EmitterState) (B : Behaviour) (key : Key)
    (c : Carrier) (p : Payload) (pre : List Handler) (h : Handler)
    (post : List Handler) (e : Err)
    (hlist : st.listOf key = pre ++ h :: post)
    (hpre : ∀ g ∈ pre, B g c p = .ok ()) (herr : B h c p = .error e) :
    emit st B key c p = ((pre ++ [h]).map (fun g => ⟨g, c, p⟩), some e) := by
  rw [show emit st B key c p = runSeq B c p (st.listOf key) from rfl, hlist]
  exact runSeq_first_error B c p pre h post e hpre herr

/-- Witness for C9: with handlers `[1, 2, 3]` for key `"a"` where handler
`2` throws error `42`, `emit` invokes `1` then `2` only, and the propagated
error is exactly `42`. -/
theorem c9_witness :
    emit (createEmitter [(Key.str "a", [1, 2, 3])] none)
        (fun h _ _ => if h = 2 then .error 42 else .ok ()) (Key.str "a") 5 7 =
      ([⟨1, 5, 7⟩, ⟨2, 5, 7⟩], some 42) :=
  (c9_emit_throw_aborts (createEmitter [(Key.str "a", [1, 2, 3])] none)
      (fun h _ _ => if h = 2 then .error 42 else .ok ()) (Key.str "a") 5 7
      [1] 2 [3] 42 (by decide)
      (fun g hg => by rcases List.mem_singleton.mp hg with rfl; rfl)
      rfl).trans (by decide)

/-! ## C2, C3: asynchronous emission -/

/-- C2: concurrent `emitAsync` settles every handler of the key's list (the
trace is the whole list, never cut short at a failure); it succeeds exactly
when no handler failed; and any failure it produces is a single
`aggregateError` whose error list is the rejection reasons of the failing
handlers in the order those handlers appear in the list (non-empty), with
the message stating how many handlers failed for that key.  It never fails
with an unwrapped single handler error. -/
theorem c2_emit_async_concurrent_aggregates (st : EmitterState)
    (B : Behaviour) (key : Key) (c : Carrier) (p : Payload) :
    (emitAsync st B key c p .concurrent).1 =
        (st.listOf key).map (fun h => ⟨h, c, p⟩) ∧
    ((emitAsync st B key c p .concurrent).2 = none ↔
        ∀ h ∈ st.listOf key, B h c p = .ok ()) ∧
    (∀ es msg,
        (emitAsync st B key c p .concurrent).2 =
            some (.aggregateError es msg) →
        es = (st.listOf key).filterMap (fun h => errOf (B h c p)) ∧
        es ≠ [] ∧ msg = aggregateMessage es.length key) ∧
    (∀ e, (emitAsync st B key c p .concurrent).2 ≠
        some (.handlerError e)) := by
  have hfm : (st.listOf key).filterMap (fun h =>
        match B h c p with
        | .error e => some e
        | .ok _ => none) =
      (st.listOf key).filterMap (fun h => errOf (B h c p)) := by
    congr 1
  refine ⟨rfl, ?_, ?_, ?_⟩
  · simp only [emitAsync, hfm]
    constructor
    · intro hnone h hh
      by_cases hemp :
          ((st.listOf key).filterMap (fun h => errOf (B h c p))).isEmpty
      · have : ∀ g ∈ st.listOf key, errOf (B g c p) = none := by
          rw [List.isEmpty_iff] at hemp
          exact List.filterMap_eq_nil_iff.mp hemp
        exact (errOf_eq_none_iff _).mp (this h hh)
      · simp [hemp] at hnone
    · intro hall
      have : ((st.listOf key).filterMap
          (fun h => errOf (B h c p))).isEmpty := by
        rw [List.isEmpty_iff, List.filterMap_eq_nil_iff]
        exact fun h hh => (errOf_eq_none_iff _).mpr (hall h hh)
      simp [this]
  · intro es msg hsome
    simp only [emitAsync, hfm] at hsome
    by_cases hemp :
        ((st.listOf key).filterMap (fun h => errOf (B h c p))).isEmpty
    · simp [hemp] at hsome
    · simp only [hemp, if_neg, Bool.false_eq_true, if_false,
        Option.some.injEq, AsyncFailure.aggregateError.injEq] at hsome
      obtain ⟨rfl, rfl⟩ := hsome
      exact ⟨rfl, by simpa [List.isEmpty_iff] using hemp, rfl⟩
  · intro e hsome
    simp only [emitAsync, hfm] at hsome
    by_cases hemp :
        ((st.listOf key).filterMap (fun h => errOf (B h c p))).isEmpty <;>
      simp [hemp] at hsome

/-- C3: sequential `emitAsync` awaits each handler in insertion order and
stops at the first rejection: with the key's list split as
`pre ++ h :: post` where every handler of `pre` fulfils and `h` rejects
with `e`, exactly `pre ++ [h]` are invoked (the handlers after the failing
one are never invoked) and the operation fails with that handler's error
unwrapped (`handlerError e`, not an aggregate). -/
theorem c3_emit_async_sequential_stops_at_first_error (st : EmitterState)
    (B : Behaviour) (key : Key) (c : Carrier) (p : Payload)
    (pre : List Handler) (h : Handler) (post : List Handler) (e : Err)
    (hlist : st.listOf key = pre ++ h :: post)
    (hpre : ∀ g ∈ pre, B g c p = .ok ()) (herr : B h c p = .error e) :
    emitAsync st B key c p .sequencial =
      ((pre ++ [h]).map (fun g => ⟨g, c, p⟩),
       some (.handlerError e)) := by
  simp only [emitAsync, hlist,
    runSeq_first_error B c p pre h post e hpre herr]
  rfl

/-- Witness for C3: with handlers `[1, 2]` for key `"a"` where handler `1`
rejects with error `9` and handler `2` would succeed, sequential
`emitAsync` invokes only handler `1` and fails with the unwrapped error
`9`. -/
theorem c3_witness :
    emitAsync (createEmitter [(Key.str "a", [1, 2])] none)
        (fun h _ _ => if h = 1 then .error 9 else .ok ()) (Key.str "a") 5 7
        .sequencial =
      ([⟨1, 5, 7⟩], some (.handlerError 9)) :=
  (c3_emit_async_sequential_stops_at_first_error
      (createEmitter [(Key.str "a", [1, 2])] none)
      (fun h _ _ => if h = 1 then .error 9 else .ok ()) (Key.str "a") 5 7
      [] 1 [2] 9 (by decide) (fun g hg => by cases hg) rfl).trans
    (by decide)

/-! ## Helper lemmas: `on`, `off`, construction -/

theorem ensure_getD (st : EmitterState) (key k : Key) :
    ((if (st.handlers key).isSome then st.handlers
        else mapSet st.handlers key []) k).getD [] = st.listOf k := by
  by_cases hk : (st.handlers key).isSome
  · simp [hk, EmitterState.listOf]
  · simp only [hk, if_false, Bool.false_eq_true]
    by_cases hkk : k = key
    · subst hkk
      simp [mapSet, EmitterState.listOf,
        Option.not_isSome_iff_eq_none.mp hk]
    · simp [mapSet, hkk, EmitterState.listOf]

theorem on_eq (st : EmitterState) (key : Key) (handler : Handler) :
    «on» st key handler =
      if ((st.listOf key).length : Int) ≥ st.limit then
        (⟨if (st.handlers key).isSome then st.handlers
            else mapSet st.handlers key [], st.maxHandlers⟩,
         some ⟨st.limit, key⟩)
      else if handler ∈ st.listOf key then
        (⟨if (st.handlers key).isSome then st.handlers
            else mapSet st.handlers key [], st.maxHandlers⟩, none)
      else
        (⟨mapSet (if (st.handlers key).isSome then st.handlers
            else mapSet st.handlers key []) key (st.listOf key ++ [handler]),
          st.maxHandlers⟩, none) := by
  simp only [«on», ensure_getD st key key]

theorem on_full (st : EmitterState) (key : Key) (h : Handler)
    (hfull : ((st.listOf key).length : Int) ≥ st.limit) :
    («on» st key h).2 = some ⟨st.limit, key⟩ ∧
    ∀ k, («on» st key h).1.listOf k = st.listOf k := by
  rw [on_eq, if_pos hfull]
  exact ⟨rfl, fun k => ensure_getD st key k⟩

theorem on_mem (st : EmitterState) (key : Key) (h : Handler)
    (hmem : h ∈ st.listOf key)
    (hlt : ((st.listOf key).length : Int) < st.limit) :
    «on» st key h = (st, none) := by
  have hsome : (st.handlers key).isSome := by
    rcases hh : st.handlers key with _ | arr
    · rw [EmitterState.listOf, hh] at hmem
      simp at hmem
    · rfl
  rw [on_eq, if_neg (not_le.mpr hlt), if_pos hmem, if_pos hsome]

theorem on_push (st : EmitterState) (key : Key) (h : Handler)
    (hnotmem : h ∉ st.listOf key)
    (hlt : ((st.listOf key).length : Int) < st.limit) :
    («on» st key h).2 = none ∧
    («on» st key h).1.listOf key = st.listOf key ++ [h] ∧
    ∀ k, k ≠ key → («on» st key h).1.listOf k = st.listOf k := by
  rw [on_eq, if_neg (not_le.mpr hlt), if_neg hnotmem]
  refine ⟨rfl, by simp [EmitterState.listOf, mapSet], ?_⟩
  intro k hk
  have : (mapSet (if (st.handlers key).isSome then st.handlers
      else mapSet st.handlers key []) key (st.listOf key ++ [h])) k =
      (if (st.handlers key).isSome then st.handlers
        else mapSet st.handlers key []) k := by
    simp [mapSet, hk]
  rw [EmitterState.listOf]
  dsimp only
  rw [this]
  exact ensure_getD st key k

theorem off_none_listOf (st : EmitterState) (key : Key) :
    (off st key none).listOf key = [] ∧
    ∀ k, k ≠ key → (off st key none).handlers k = st.handlers k := by
  constructor
  · simp [off, mapDelete, EmitterState.listOf]
  · intro k hk
    simp [off, mapDelete, hk]

theorem noDupInv_on (st : EmitterState) (k : Key) (h : Handler)
    (hInv : NoDupInv st) : NoDupInv («on» st k h).1 := by
  by_cases hfull : ((st.listOf k).length : Int) ≥ st.limit
  · intro k'
    rw [(on_full st k h hfull).2 k']
    exact hInv k'
  · by_cases hmem : h ∈ st.listOf k
    · rw [on_mem st k h hmem (not_le.mp hfull)]
      exact hInv
    · intro k'
      by_cases hk : k' = k
      · subst hk
        rw [(on_push st k' h hmem (not_le.mp hfull)).2.1]
        simp only [List.nodup_append, List.nodup_cons, List.not_mem_nil,
          not_false_iff, List.nodup_nil, and_true, true_and]
        exact ⟨hInv k', by simpa [List.disjoint_singleton] using hmem⟩
      · rw [(on_push st k h hmem (not_le.mp hfull)).2.2 k' hk]
        exact hInv k'

theorem noDupInv_off (st : EmitterState) (k : Key) (h : Option Handler)
    (hInv : NoDupInv st) : NoDupInv (off st k h) := by
  intro k'
  match h with
  | none =>
    by_cases hk : k' = k
    · subst hk
      simp [off, mapDelete, EmitterState.listOf]
    · simpa [off, mapDelete, hk, EmitterState.listOf] using hInv k'
  | some hh =>
    rcases harr : st.handlers k with _ | arr
    · simpa [off, harr] using hInv k'
    · by_cases hk : k' = k
      · subst hk
        have harrnd : arr.Nodup := by
          have := hInv k'
          rwa [EmitterState.listOf, harr, Option.getD_some] at this
        simp only [off, harr, EmitterState.listOf, mapSet, if_pos rfl,
          Option.getD_some]
        exact harrnd.filter _
      · simpa [off, harr, mapSet, hk, EmitterState.listOf] using hInv k'

theorem noDupInv_applyOp (st : EmitterState) (op : Op)
    (hInv : NoDupInv st) : NoDupInv (applyOp st op) := by
  cases op with
  | subscribe k h => exact noDupInv_on st k h hInv
  | unsubscribe k h => exact noDupInv_off st k h hInv

theorem foldl_mapSet_nodup :
    ∀ (l : List (Key × List Handler)) (acc : Registry),
      (∀ kv ∈ l, kv.2.Nodup) → (∀ k, ((acc k).getD []).Nodup) →
      ∀ k, (((l.foldl (fun m kv => mapSet m kv.1 kv.2) acc) k).getD []).Nodup
  | [], _, _, hacc, k => by simpa using hacc k
  | kv :: rest, acc, hl, hacc, k => by
    simp only [List.foldl_cons]
    refine foldl_mapSet_nodup rest _
      (fun kv' h' => hl kv' (List.mem_cons_of_mem _ h')) ?_ k
    intro k'
    by_cases hk : k' = kv.1
    · subst hk
      simpa [mapSet] using hl kv (List.mem_cons_self _ _)
    · simpa [mapSet, hk] using hacc k'

theorem foldl_mapSet_str_only :
    ∀ (l : List (Key × List Handler)) (acc : Registry),
      (∀ kv ∈ l, kv.1.isStr) →
      ∀ id, (l.foldl (fun m kv => mapSet m kv.1 kv.2) acc) (Key.sym id) =
        acc (Key.sym id)
  | [], _, _, _ => rfl
  | kv :: rest, acc, hl, id => by
    obtain ⟨k1, v1⟩ := kv
    simp only [List.foldl_cons]
    rw [foldl_mapSet_str_only rest _
      (fun kv' h' => hl kv' (List.mem_cons_of_mem _ h')) id]
    have hstr : k1.isStr := hl ⟨k1, v1⟩ (List.mem_cons_self _ _)
    cases k1 with
    | str s => simp [mapSet]
    | sym i => simp [Key.isStr] at hstr

theorem off_some_listOf (st : EmitterState) (key : Key) (h : Handler) :
    (off st key (some h)).listOf key = (st.listOf key).filter (· ≠ h) ∧
    ∀ k, k ≠ key → (off st key (some h)).handlers k = st.handlers k := by
  rcases harr : st.handlers key with _ | arr
  · refine ⟨?_, fun k hk => ?_⟩
    · simp [off, harr, EmitterState.listOf]
    · simp [off, harr]
  · refine ⟨?_, fun k hk => ?_⟩
    · simp [off, harr, EmitterState.listOf, mapSet]
    · simp [off, harr, mapSet, hk]

/-! ## C4, C5: the subscribe guards -/

/-- C4: counterexample — with `maxHandlers = 1` and handler `5` already the
sole (hence limit-filling) entry for key `"a"`, subscribing `5` again does
not succeed: the limit guard runs before the duplicate check, so `on`
throws the `RangeError` even for an already-present handler. -/
theorem c4_counterexample :
    5 ∈ (createEmitter [(Key.str "a", [5])] (some 1)).listOf (Key.str "a") ∧
    ((createEmitter [(Key.str "a", [5])] (some 1)).listOf
        (Key.str "a")).length = 1 ∧
    (createEmitter [(Key.str "a", [5])] (some 1)).maxHandlers = some 1 ∧
    («on» (createEmitter [(Key.str "a", [5])] (some 1)) (Key.str "a") 5).2 =
      some ⟨1, Key.str "a"⟩ := by
  decide

/-- C4 (amended): subscribing a handler already present (by identity) in a
key's list is an error-free no-op — provided the list's length is strictly
below the limit, since the limit guard runs first and fires even for an
already-present handler when the list is full.  In the no-op case the state
is unchanged, and (the list being duplicate-free) a subsequent emit invokes
that handler exactly once. -/
theorem c4_resubscribe_noop_below_limit (st : EmitterState) (key : Key)
    (h : Handler) (B : Behaviour) (c : Carrier) (p : Payload)
    (hmem : h ∈ st.listOf key)
    (hlt : ((st.listOf key).length : Int) < st.limit)
    (hnd : (st.listOf key).Nodup)
    (hok : ∀ g ∈ st.listOf key, B g c p = .ok ()) :
    «on» st key h = (st, none) ∧
    ((emit («on» st key h).1 B key c p).1.map Invocation.handler).count h
      = 1 := by
  have hon := on_mem st key h hmem hlt
  refine ⟨hon, ?_⟩
  rw [hon]
  have hrun := runSeq_all_ok B c p (st.listOf key) hok
  rw [show emit st B key c p = runSeq B c p (st.listOf key) from rfl, hrun]
  have hmap : ∀ l : List Handler,
      (l.map (fun g => (⟨g, c, p⟩ : Invocation))).map Invocation.handler
        = l := by
    intro l
    induction l with
    | nil => rfl
    | cons a t ih => simp only [List.map_cons, ih]
  rw [hmap]
  exact List.count_eq_one_of_mem hnd hmem

/-- Witness for C4 (amended): handler `5` is already registered for `"a"`
(list `[5]`, below the default limit 10); resubscribing it is a no-op and
emitting invokes it exactly once. -/
theorem c4_witness :
    «on» (createEmitter [(Key.str "a", [5])] none) (Key.str "a") 5 =
      (createEmitter [(Key.str "a", [5])] none, none) :=
  (c4_resubscribe_noop_below_limit (createEmitter [(Key.str "a", [5])] none)
      (Key.str "a") 5 (fun _ _ _ => .ok ()) 3 4 (by decide) (by decide)
      (by decide) (fun _ _ => rfl)).1

/-- C5: when a key's list length equals the configured limit, subscribing a
handler not already in the list fails with the `RangeError` carrying the
limit and the key, and every key's handler list is unchanged afterward (so
no list ever grows past the limit through `on`). -/
theorem c5_subscribe_at_limit_fails (st : EmitterState) (key : Key)
    (h : Handler)
    (hfull : ((st.listOf key).length : Int) = st.limit)
    (_hnotmem : h ∉ st.listOf key) :
    («on» st key h).2 = some ⟨st.limit, key⟩ ∧
    ∀ k, («on» st key h).1.listOf k = st.listOf k :=
  on_full st key h (le_of_eq hfull.symm)

/-- Witness for C5: with `maxHandlers = 2` and handlers `[1, 2]` for `"a"`,
subscribing the fresh handler `3` fails with the `RangeError` for limit `2`
and key `"a"`, and the list is still `[1, 2]`. -/
theorem c5_witness :
    («on» (createEmitter [(Key.str "a", [1, 2])] (some 2)) (Key.str "a")
        3).2 = some ⟨2, Key.str "a"⟩ ∧
    («on» (createEmitter [(Key.str "a", [1, 2])] (some 2)) (Key.str "a")
        3).1.listOf (Key.str "a") = [1, 2] := by
  have h := c5_subscribe_at_limit_fails
    (createEmitter [(Key.str "a", [1, 2])] (some 2)) (Key.str "a") 3
    (by decide) (by decide)
  exact ⟨h.1.trans (by decide), (h.2 (Key.str "a")).trans (by decide)⟩

/-! ## C6: construction with a non-positive limit -/

/-- C6: counterexample — `createEmitter` with `maxHandlers = 0` does not
fail: it returns a fully-formed dispatcher (the non-positive limit is
stored unvalidated), and the misconfiguration only surfaces later, at
subscribe time, as the handler-limit `RangeError` — no configuration error
exists at construction. -/
theorem c6_counterexample :
    (createEmitter [] (some 0)).maxHandlers = some 0 ∧
    (createEmitter [] (some 0)).handlers (Key.str "x") = none ∧
    («on» (createEmitter [] (some 0)) (Key.str "x") 1).2 =
      some ⟨0, Key.str "x"⟩ := by
  decide

/-- C6 (amended): `createEmitter` performs no validation of its options —
construction always succeeds and produces a dispatcher, for non-positive
`maxHandlers` values too.  On any state whose effective limit is
non-positive, every subscribe then fails with the handler-limit
`RangeError` (leaving all handler lists unchanged), so the misconfiguration
surfaces at subscribe time rather than at construction. -/
theorem c6_no_construction_validation (seed : List (Key × List Handler))
    (lim : Int) (key : Key) (h : Handler) (hnp : lim ≤ 0) :
    (createEmitter seed (some lim)).maxHandlers = some lim ∧
    («on» (createEmitter seed (some lim)) key h).2 =
      some ⟨lim, key⟩ ∧
    ∀ k, («on» (createEmitter seed (some lim)) key h).1.listOf k =
      (createEmitter seed (some lim)).listOf k := by
  have hlim : (createEmitter seed (some lim)).limit = lim := rfl
  have hfull : (((createEmitter seed (some lim)).listOf key).length : Int) ≥
      (createEmitter seed (some lim)).limit := by
    rw [hlim]
    exact le_trans hnp (Int.ofNat_nonneg _)
  have hf := on_full (createEmitter seed (some lim)) key h hfull
  exact ⟨rfl, by rw [hf.1, hlim], hf.2⟩

/-- Witness for C6 (amended): limit `-3` is accepted at construction and
every subscribe on the resulting dispatcher fails with the `RangeError`
carrying `-3`. -/
theorem c6_witness :
    (createEmitter [(Key.str "a", [1])] (some (-3))).maxHandlers =
      some (-3) ∧
    («on» (createEmitter [(Key.str "a", [1])] (some (-3))) (Key.str "b")
        2).2 = some ⟨-3, Key.str "b"⟩ := by
  have h := c6_no_construction_validation [(Key.str "a", [1])] (-3)
    (Key.str "b") 2 (by decide)
  exact ⟨h.1, h.2.1⟩

/-! ## C7: the no-duplicate invariant -/

/-- C7: counterexample — a dispatcher constructed from an initial map whose
list for `"a"` is `[7, 7]` is a reachable state (the empty operation
sequence) violating the no-duplicate invariant: construction does not
de-duplicate the seed lists. -/
theorem c7_counterexample :
    ¬ NoDupInv (applyOps (createEmitter [(Key.str "a", [7, 7])] none) []) := by
  intro hInv
  have h := hInv (Key.str "a")
  revert h
  decide

/-- C7 (amended): from any construction whose seed lists are themselves
duplicate-free (in particular from the default empty construction), every
state reachable by any sequence of subscribe/unsubscribe operations has no
key whose handler list mentions the same handler identity twice: `on`
de-duplicates and `off` only removes.  Construction itself does not
de-duplicate, so the restriction on the seed is necessary (see the
counterexample). -/
theorem c7_nodup_invariant_from_dedup_seed
    (seed : List (Key × List Handler)) (opts : Option Int) (ops : List Op)
    (hseed : ∀ kv ∈ seed, kv.2.Nodup) :
    NoDupInv (applyOps (createEmitter seed opts) ops) := by
  have hbase : NoDupInv (createEmitter seed opts) := by
    intro k
    show ((((seed.filter (fun kv => kv.1.isStr)).foldl
        (fun m kv => mapSet m kv.1 kv.2) (fun _ => none)) k).getD []).Nodup
    exact foldl_mapSet_nodup _ (fun _ => none)
      (fun kv h' => hseed kv (List.mem_of_mem_filter h'))
      (fun _ => List.nodup_nil) k
  have hstep : ∀ (l : List Op) (st : EmitterState), NoDupInv st →
      NoDupInv (applyOps st l) := by
    intro l
    induction l with
    | nil => exact fun st h => h
    | cons op rest ih =>
      exact fun st h => ih (applyOp st op) (noDupInv_applyOp st op h)
  exact hstep ops _ hbase

/-- Witness for C7 (amended): a duplicate-free seed followed by a re-subscribe,
a fresh subscribe and an unsubscribe yields a duplicate-free list for `"a"`. -/
theorem c7_witness :
    ((applyOps (createEmitter [(Key.str "a", [1, 2])] none)
        [Op.subscribe (Key.str "a") 1, Op.subscribe (Key.str "b") 3,
         Op.unsubscribe (Key.str "a") (some 2)]).listOf
      (Key.str "a")).Nodup :=
  c7_nodup_invariant_from_dedup_seed [(Key.str "a", [1, 2])] none
    [Op.subscribe (Key.str "a") 1, Op.subscribe (Key.str "b") 3,
     Op.unsubscribe (Key.str "a") (some 2)] (by decide) (Key.str "a")

/-! ## C8: unsubscribe-all -/

/-- C8: `off` without a handler argument removes the key's whole handler
list: afterwards that key's list is empty, a subsequent `emit` or
`emitAsync` (either mode) for that key performs no invocation and completes
normally, the registry entries of every other key are untouched, and a new
subscribe for the key (the limit being positive) registers its handler
again, so emission resumes. -/
theorem c8_off_removes_all (st : EmitterState) (key : Key) (B : Behaviour)
    (c : Carrier) (p : Payload) (mode : Mode) (h : Handler)
    (hpos : 0 < st.limit) :
    (off st key none).listOf key = [] ∧
    emit (off st key none) B key c p = ([], none) ∧
    emitAsync (off st key none) B key c p mode = ([], none) ∧
    (∀ k, k ≠ key → (off st key none).handlers k = st.handlers k) ∧
    («on» (off st key none) key h).1.listOf key = [h] := by
  have hoff := off_none_listOf st key
  refine ⟨hoff.1, ?_, ?_, hoff.2, ?_⟩
  · rw [show emit (off st key none) B key c p =
      runSeq B c p ((off st key none).listOf key) from rfl, hoff.1]
    rfl
  · cases mode with
    | sequencial => simp [emitAsync, hoff.1, runSeq]
    | concurrent => simp [emitAsync, hoff.1]
  · have hlt : (((off st key none).listOf key).length : Int) <
        (off st key none).limit := by
      rw [hoff.1]
      exact hpos
    have hp := on_push (off st key none) key h (by rw [hoff.1]; simp) hlt
    rw [hp.2.1, hoff.1]
    rfl

/-- Witness for C8: removing all handlers of `"a"` on a dispatcher seeded
with `"a" ↦ [1, 2]` and `"b" ↦ [9]` empties `"a"`, makes emitting `"a"` a
no-op, leaves `"b"` untouched, and a later subscribe of `4` to `"a"`
registers it again. -/
theorem c8_witness :
    (off (createEmitter [(Key.str "a", [1, 2]), (Key.str "b", [9])] none)
        (Key.str "a") none).listOf (Key.str "a") = [] ∧
    emit (off (createEmitter [(Key.str "a", [1, 2]), (Key.str "b", [9])]
        none) (Key.str "a") none) (fun _ _ _ => .ok ()) (Key.str "a") 5 7 =
      ([], none) ∧
    (off (createEmitter [(Key.str "a", [1, 2]), (Key.str "b", [9])] none)
        (Key.str "a") none).handlers (Key.str "b") = some [9] ∧
    («on» (off (createEmitter [(Key.str "a", [1, 2]), (Key.str "b", [9])]
        none) (Key.str "a") none) (Key.str "a") 4).1.listOf (Key.str "a") =
      [4] := by
  have h := c8_off_removes_all
    (createEmitter [(Key.str "a", [1, 2]), (Key.str "b", [9])] none)
    (Key.str "a") (fun _ _ _ => .ok ()) 5 7 Mode.concurrent 4 (by decide)
  exact ⟨h.1, h.2.1,
    (h.2.2.2.1 (Key.str "b") (by decide)).trans (by decide), h.2.2.2.2⟩

/-! ## C10: symbol keys in the initial handler map -/

/-- C10: only string-keyed entries of the initial handler map are
registered by `createEmitter` — an entry under a symbol key is silently
dropped (`Object.entries` does not enumerate symbol properties), so the
constructed registry has no entry for any symbol key and emitting a symbol
key right after construction invokes nothing, in either emission style.
The operations themselves do accept symbol keys: subscribing a handler to a
symbol key (limit positive) registers it, and unsubscribing the symbol key
removes it again. -/
theorem c10_symbol_seed_entries_dropped (seed : List (Key × List Handler))
    (opts : Option Int) (id : Nat) (B : Behaviour) (c : Carrier)
    (p : Payload) (mode : Mode) (h : Handler)
    (hpos : 0 < (createEmitter seed opts).limit) :
    (createEmitter seed opts).handlers (Key.sym id) = none ∧
    emit (createEmitter seed opts) B (Key.sym id) c p = ([], none) ∧
    emitAsync (createEmitter seed opts) B (Key.sym id) c p mode =
      ([], none) ∧
    («on» (createEmitter seed opts) (Key.sym id) h).1.listOf (Key.sym id) =
      [h] ∧
    (off («on» (createEmitter seed opts) (Key.sym id) h).1 (Key.sym id)
        (some h)).listOf (Key.sym id) = [] := by
  have hnone : (createEmitter seed opts).handlers (Key.sym id) = none := by
    show ((seed.filter (fun kv => kv.1.isStr)).foldl
        (fun m kv => mapSet m kv.1 kv.2) (fun _ => none)) (Key.sym id) = none
    rw [foldl_mapSet_str_only _ (fun _ => none)
      (fun kv h' => (List.mem_filter.mp h').2) id]
  have hempty : (createEmitter seed opts).listOf (Key.sym id) = [] := by
    rw [EmitterState.listOf, hnone]
    rfl
  have hlt : (((createEmitter seed opts).listOf (Key.sym id)).length : Int) <
      (createEmitter seed opts).limit := by
    rw [hempty]
    exact hpos
  have hp := on_push (createEmitter seed opts) (Key.sym id) h
    (by rw [hempty]; simp) hlt
  have hreg : («on» (createEmitter seed opts) (Key.sym id) h).1.listOf
      (Key.sym id) = [h] := by
    rw [hp.2.1, hempty]
    rfl
  refine ⟨hnone, ?_, ?_, hreg, ?_⟩
  · rw [show emit (createEmitter seed opts) B (Key.sym id) c p =
      runSeq B c p ((createEmitter seed opts).listOf (Key.sym id)) from rfl,
      hempty]
    rfl
  · cases mode with
    | sequencial => simp [emitAsync, hempty, runSeq]
    | concurrent => simp [emitAsync, hempty]
  · rw [(off_some_listOf («on» (createEmitter seed opts) (Key.sym id) h).1
      (Key.sym id) h).1, hreg]
    simp

/-- Witness for C10: a seed holding a symbol-keyed entry `sym 3 ↦ [8]` and a
string entry `"a" ↦ [1]` registers nothing under `sym 3`; emitting `sym 3`
invokes nothing; subscribing handler `2` to `sym 3` then registers it. -/
theorem c10_witness :
    (createEmitter [(Key.sym 3, [8]), (Key.str "a", [1])] none).handlers
      (Key.sym 3) = none ∧
    emit (createEmitter [(Key.sym 3, [8]), (Key.str "a", [1])] none)
      (fun _ _ _ => .ok ()) (Key.sym 3) 5 7 = ([], none) ∧
    («on» (createEmitter [(Key.sym 3, [8]), (Key.str "a", [1])] none)
        (Key.sym 3) 2).1.listOf (Key.sym 3) = [2] := by
  have h := c10_symbol_seed_entries_dropped
    [(Key.sym 3, [8]), (Key.str "a", [1])] none 3 (fun _ _ _ => .ok ())
    5 7 Mode.concurrent 2 (by decide)
  exact ⟨h.1, h.2.1, h.2.2.2.1⟩
